import Mathlib

/-!
Verification development for the address-decode generation stage
(`src/peakrdl/regblock/addr_decode.py`).

The Python module is shallowly embedded: each helper of the source file
becomes a Lean function of the same name, node trees of the systemrdl
address model become the inductive `RNode`, and the recursive
enter/exit walker of `DecodeLogicGenerator` becomes the mutually
recursive `walk`/`walkList` pair threading an explicit `GenState`
(the `_array_stride_stack` and the accumulated content lines).
Machine integers are modelled as `Nat`; Python's f-string hex
formatting `'h{n:x}` is reproduced by `hexStr`.
-/

set_option linter.unusedVariables false

/-- Python's `f"{n:x}"` for a nonnegative integer: lowercase hex digits,
most significant first, `"0"` for zero. -/
def hexStr (n : Nat) : String :=
  String.mk (Nat.toDigits 16 n)

/-- The attributes of a systemrdl node that `addr_decode.py` reads
(`inst_name`, `raw_absolute_address`, `array_dimensions`, `array_stride`).
`array_dimensions` is ordered outermost first, empty when not an array. -/
structure NodeData where
  inst_name : String
  raw_absolute_address : Nat
  array_dimensions : List Nat
  array_stride : Nat
  deriving DecidableEq, Repr

/-- systemrdl's `node.is_array`: the instance has array dimensions. -/
def NodeData.is_array (d : NodeData) : Bool :=
  !d.array_dimensions.isEmpty

/-- Node kind: register, memory (with its `mementries` / `memwidth`
properties), container (addrmap/regfile), or field. -/
inductive NodeKind where
  | regk : NodeKind
  | memk (mementries : Nat) (memwidth : Nat) : NodeKind
  | containerk : NodeKind
  | fieldk : NodeKind
  deriving DecidableEq, Repr

/-- A node of the elaborated address model: data, kind, children. -/
inductive RNode where
  | mk (d : NodeData) (k : NodeKind) (children : List RNode) : RNode

def RNode.data : RNode → NodeData
  | .mk d _ _ => d

def RNode.kind : RNode → NodeKind
  | .mk _ k _ => k

def RNode.children : RNode → List RNode
  | .mk _ _ cs => cs

/-- The stride loop of `enter_AddressableComponent` (source lines 87-91):
walking the reversed dimension list, emit the running stride, then
multiply it by the dimension just passed. -/
def strideScan : List Nat → Nat → List Nat
  | [], _ => []
  | d :: rest, cur => cur :: strideScan rest (cur * d)

/-- Per-dimension strides pushed by `enter_AddressableComponent`
(source lines 86-92): innermost stride is `array_stride`, cumulative
products moving outward, the result reversed to outermost-first order. -/
def reg_strides (dims : List Nat) (stride : Nat) : List Nat :=
  (strideScan dims.reverse stride).reverse

/-- `DecodeLogicGenerator._gen_mem_array_stride` (source lines 102-110):
start from `array_stride`, then for each index `0 ≤ i < len(dims)-1` of
the reversed dimension list append `array_stride * dims_reversed[i]`
(note: the plain stride, not a running product), then reverse. -/
def mem_strides (dims : List Nat) (stride : Nat) : List Nat :=
  let rev := dims.reverse
  (stride :: (rev.take (rev.length - 1)).map (fun d => stride * d)).reverse

/-- One array-index summand of an address expression:
Python's `f" + i{i}*'h{stride:x}"`. -/
def idxTerm (i : Nat) (stride : Nat) : String :=
  " + i" ++ Nat.repr i ++ "*'h" ++ hexStr stride

/-- The summand list produced by `for i, stride in enumerate(stack)`. -/
def idxTermsList (strides : List Nat) : List String :=
  strides.enum.map (fun p => idxTerm p.1 p.2)

/-- Concatenation of all summands appended by the enumerate loop. -/
def idxTerms (strides : List Nat) : String :=
  String.join (idxTermsList strides)

/-- `DecodeLogicGenerator._get_address_str` (source lines 96-100):
root-relative offset in hex, plus one summand per entry of the shared
`_array_stride_stack`. `top` is `top_node.raw_absolute_address`. -/
def get_address_str (top : Nat) (d : NodeData) (stack : List Nat) : String :=
  "'h" ++ hexStr (d.raw_absolute_address - top) ++ idxTerms stack

/-- `DecodeLogicGenerator._get_mem_address_str` (source lines 112-118):
root-relative offset, plus, when the memory itself is an array, the
summands of `_gen_mem_array_stride` (the shared stack is not used). -/
def get_mem_address_str (top : Nat) (d : NodeData) : String :=
  let a := "'h" ++ hexStr (d.raw_absolute_address - top)
  if d.is_array then a ++ idxTerms (mem_strides d.array_dimensions d.array_stride) else a

/-- `math.ceil(memwidth/8)` (source lines 123 and 148). -/
def membyte_per_entry (memwidth : Nat) : Nat :=
  (memwidth + 7) / 8

/-- `DecodeLogicGenerator._get_upper_mem_address_str` (source lines 120-129):
root-relative offset plus `ceil(memwidth/8) * mementries`, then the same
array summands as the lower bound. -/
def get_upper_mem_address_str (top : Nat) (d : NodeData) (mementries memwidth : Nat) : String :=
  let a := "'h" ++ hexStr (d.raw_absolute_address - top + membyte_per_entry memwidth * mementries)
  if d.is_array then a ++ idxTerms (mem_strides d.array_dimensions d.array_stride) else a

/-- Argument of `get_access_strobe` / `get_access`: a register/memory
node, or a field node carrying its parent register. -/
inductive AccessNode where
  | regNode (d : NodeData) : AccessNode
  | fieldNode (parent : NodeData) (fd : NodeData) : AccessNode

/-- `AddressDecode.get_access_strobe` (source lines 33-41): a field
resolves to its parent register, then `"decoded_reg_strb." + path`. -/
def get_access_strobe (path : NodeData → String) : AccessNode → String
  | .regNode d => "decoded_reg_strb." ++ path d
  | .fieldNode parent _ => "decoded_reg_strb." ++ path parent

/-- `AddressDecode.get_access` (source lines 43-51): a field resolves to
its parent register, then the bare indexed path. -/
def get_access (path : NodeData → String) : AccessNode → String
  | .regNode d => path d
  | .fieldNode parent _ => path parent

/-- The statement emitted by `enter_Reg` (source lines 131-133). -/
def regStmt (path : NodeData → String) (top : Nat) (d : NodeData) (stack : List Nat) : String :=
  get_access_strobe path (AccessNode.regNode d) ++ " = cpuif_req_masked & (cpuif_addr == " ++
    get_address_str top d stack ++ ");"

/-- The statement emitted by `enter_Mem` (source lines 145-151). -/
def memStmt (path : NodeData → String) (top : Nat) (d : NodeData) (mementries memwidth : Nat) : String :=
  get_access_strobe path (AccessNode.regNode d) ++ " = cpuif_req_masked & (cpuif_addr >= (" ++
    get_mem_address_str top d ++ ")) &  (cpuif_addr < (" ++
    get_upper_mem_address_str top d mementries memwidth ++ "));"

/-- `enter_AddressableComponent` (source lines 80-93): push the
node's per-dimension strides onto the shared stack when it is an array. -/
def enterAC (d : NodeData) (stack : List Nat) : List Nat :=
  if d.is_array then stack ++ reg_strides d.array_dimensions d.array_stride else stack

/-- `exit_AddressableComponent` (source lines 136-143): pop one entry
per array dimension when the node is an array. -/
def exitAC (d : NodeData) (stack : List Nat) : List Nat :=
  if d.is_array then stack.take (stack.length - d.array_dimensions.length) else stack

/-- Traversal state of `DecodeLogicGenerator`: the shared
`_array_stride_stack` and the accumulated content lines. -/
structure GenState where
  stack : List Nat
  content : List String
  deriving DecidableEq, Repr

mutual

/-- The systemrdl walker driving `DecodeLogicGenerator`: enter callbacks
generic-to-specific, recurse into children, exit callbacks. Fields are
not addressable components and trigger no callback of this generator. -/
def walk (path : NodeData → String) (top : Nat) : RNode → GenState → GenState
  | RNode.mk _ NodeKind.fieldk _, st => st
  | RNode.mk d NodeKind.regk cs, st =>
    let s1 := enterAC d st.stack
    let st3 := walkList path top cs ⟨s1, st.content ++ [regStmt path top d s1]⟩
    ⟨exitAC d st3.stack, st3.content⟩
  | RNode.mk d (NodeKind.memk e w) cs, st =>
    let s1 := enterAC d st.stack
    let st3 := walkList path top cs ⟨s1, st.content ++ [memStmt path top d e w]⟩
    ⟨exitAC d st3.stack, st3.content⟩
  | RNode.mk d NodeKind.containerk cs, st =>
    let s1 := enterAC d st.stack
    let st3 := walkList path top cs ⟨s1, st.content⟩
    ⟨exitAC d st3.stack, st3.content⟩

def walkList (path : NodeData → String) (top : Nat) : List RNode → GenState → GenState
  | [], st => st
  | c :: cs, st => walkList path top cs (walk path top c st)

end

mutual

/-- `DecodeStructGenerator` (source lines 54-67) driven by the systemrdl
walker: a register or memory adds one member `(inst_name, array_dimensions)`
(`add_member`), containers add nothing of their own, and `enter_Field` is
stubbed out so field children add nothing. -/
def collectFields : RNode → List (String × List Nat)
  | RNode.mk d NodeKind.regk cs => (d.inst_name, d.array_dimensions) :: collectFieldsList cs
  | RNode.mk d (NodeKind.memk _ _) cs => (d.inst_name, d.array_dimensions) :: collectFieldsList cs
  | RNode.mk _ NodeKind.containerk cs => collectFieldsList cs
  | RNode.mk _ NodeKind.fieldk _ => []

def collectFieldsList : List RNode → List (String × List Nat)
  | [] => []
  | c :: cs => collectFields c ++ collectFieldsList cs

end

mutual

/-- Number of register and memory nodes in the model. -/
def regMemCount : RNode → Nat
  | RNode.mk _ NodeKind.regk cs => 1 + regMemCountList cs
  | RNode.mk _ (NodeKind.memk _ _) cs => 1 + regMemCountList cs
  | RNode.mk _ NodeKind.containerk cs => regMemCountList cs
  | RNode.mk _ NodeKind.fieldk _ => 0

def regMemCountList : List RNode → Nat
  | [] => 0
  | c :: cs => regMemCount c + regMemCountList cs

end

mutual

/-- All nodes of the model in preorder, with no descent below field level. -/
def allNodes : RNode → List RNode
  | RNode.mk d k cs =>
    RNode.mk d k cs :: (if k = NodeKind.fieldk then [] else allNodesList cs)

def allNodesList : List RNode → List RNode
  | [] => []
  | c :: cs => allNodes c ++ allNodesList cs

end

/-- Whether a node kind owns a strobe (register or memory). -/
def isLeafKind : NodeKind → Bool
  | NodeKind.regk => true
  | NodeKind.memk _ _ => true
  | NodeKind.containerk => false
  | NodeKind.fieldk => false

/-- Follows the spec's words (StrobeShape, section 3 and 4.1): one field
per register or memory node of the model, named after the node's instance
name and carrying its array dimensions; containers contribute no field of
their own; nothing below field level contributes. -/
def strobeFieldsSpec (r : RNode) : List (String × List Nat) :=
  (allNodes r).filterMap
    (fun n => if isLeafKind n.kind then some (n.data.inst_name, n.data.array_dimensions) else none)

/-- One rendered member line of the struct declaration. -/
def renderMember (m : String × List Nat) : String :=
  "logic " ++ m.1 ++ String.join (m.2.map (fun n => "[" ++ Nat.repr n ++ "]")) ++ "; "

/-- Modelled from the spec: `RDLStructGenerator.get_struct`
(struct_generator.py is not under src/). Per spec section 4.1 and 6, it
returns a structural declaration string listing every collected member
under the given type name, and nothing when no member was collected. -/
def get_struct (root : RNode) (tname : String) : Option String :=
  let fs := collectFields root
  if fs.isEmpty then none
  else some ( "typedef struct \x7b " ++ String.join (fs.map renderMember) ++ "\x7d " ++ tname ++ ";")

/-- `AddressDecode.get_strobe_struct` (source lines 21-25). The Python
`assert s is not None` is modelled as `Except`: a failed assertion aborts
the generation call. -/
def get_strobe_struct (root : RNode) : Except String String :=
  match get_struct root "decoded_reg_strb_t" with
  | none => Except.error ( "AssertionError: guaranteed to have at least one reg")
  | some s => Except.ok s

/-- `AddressDecode.get_implementation` (source lines 27-31), with
`RDLForLoopGenerator.get_content` modelled from the spec
(forloop_generator.py is not under src/): the accumulated statement lines
are returned as the logic body, and nothing is returned when no content
was added; the Python `assert s is not None` is modelled as `Except`.
The walk starts from a fresh generator: empty stack, empty content. -/
def get_implementation (path : NodeData → String) (root : RNode) : Except String String :=
  let st := walk path root.data.raw_absolute_address root ⟨[], []⟩
  if st.content.isEmpty then Except.error ( "AssertionError: content is None")
  else Except.ok (String.intercalate "\n" st.content)

/-- Stack entries a node contributes in `enter_AddressableComponent`
(zero for fields, which are not addressable components). -/
def enterNode (n : RNode) (stack : List Nat) : List Nat :=
  if n.kind = NodeKind.fieldk then stack else enterAC n.data stack

/-- Array rank a node contributes to the stride stack. -/
def nodeRank (n : RNode) : Nat :=
  if n.kind = NodeKind.fieldk then 0
  else if n.data.is_array then n.data.array_dimensions.length else 0

/-- The stride stack in force at the node reached by a child-index path,
starting from stack `s` at the root: each node on the way (the reached
node included) contributes its `enter_AddressableComponent` frames. -/
def stackAtPath : RNode → List Nat → List Nat → Option (List Nat)
  | n, s, [] => some (enterNode n s)
  | n, s, i :: p =>
    match n.children.get? i with
    | none => none
    | some c => stackAtPath c (enterNode n s) p

/-- Sum of array ranks along a child-index path, the reached node included. -/
def rankSumAt : RNode → List Nat → Nat
  | n, [] => nodeRank n
  | n, i :: p =>
    nodeRank n +
      (match n.children.get? i with
       | none => 0
       | some c => rankSumAt c p)

/-- The spec's description of the per-dimension strides (sections 3 and
4.2): each dimension's stride is the array stride multiplied by the sizes
of all dimensions nested inside it, listed outermost first. -/
def spec_strides : List Nat → Nat → List Nat
  | [], _ => []
  | _ :: rest, s => s * rest.prod :: spec_strides rest s

theorem strideScan_length (l : List Nat) (c : Nat) : (strideScan l c).length = l.length := by
  induction l generalizing c with
  | nil => rfl
  | cons d rest ih => simp [strideScan, ih]

theorem reg_strides_length (dims : List Nat) (s : Nat) :
    (reg_strides dims s).length = dims.length := by
  simp [reg_strides, strideScan_length]

theorem enterAC_length (d : NodeData) (s : List Nat) :
    (enterAC d s).length = s.length + (if d.is_array then d.array_dimensions.length else 0) := by
  by_cases h : d.is_array <;> simp [enterAC, h, reg_strides_length]

theorem exitAC_enterAC (d : NodeData) (s : List Nat) : exitAC d (enterAC d s) = s := by
  by_cases h : d.is_array
  · have hl : (reg_strides d.array_dimensions d.array_stride).length = d.array_dimensions.length :=
      reg_strides_length _ _
    simp only [enterAC, exitAC, h, if_true, List.length_append, hl, Nat.add_sub_cancel]
    exact List.take_left s _
  · simp [enterAC, exitAC, h]

mutual

theorem walk_stack (path : NodeData → String) (top : Nat) (n : RNode) (st : GenState) :
    (walk path top n st).stack = st.stack := by
  cases n with
  | mk d k cs =>
    cases k with
    | fieldk => simp [walk]
    | regk => simp [walk, walkList_stack path top cs, exitAC_enterAC]
    | memk e w => simp [walk, walkList_stack path top cs, exitAC_enterAC]
    | containerk => simp [walk, walkList_stack path top cs, exitAC_enterAC]

theorem walkList_stack (path : NodeData → String) (top : Nat) (l : List RNode) (st : GenState) :
    (walkList path top l st).stack = st.stack := by
  cases l with
  | nil => simp [walkList]
  | cons c cs =>
    simp [walkList, walkList_stack path top cs, walk_stack path top c]

end

mutual

theorem walk_content (path : NodeData → String) (top : Nat) (n : RNode) (st : GenState) :
    (walk path top n st).content = st.content ++ (walk path top n ⟨st.stack, []⟩).content := by
  cases n with
  | mk d k cs =>
    cases k with
    | fieldk => simp [walk]
    | regk =>
      simp only [walk]
      rw [walkList_content path top cs, walkList_content path top cs ⟨enterAC d st.stack, [] ++ _⟩]
      simp
    | memk e w =>
      simp only [walk]
      rw [walkList_content path top cs, walkList_content path top cs ⟨enterAC d st.stack, [] ++ _⟩]
      simp
    | containerk =>
      simp only [walk]
      rw [walkList_content path top cs, walkList_content path top cs ⟨enterAC d st.stack, []⟩]

theorem walkList_content (path : NodeData → String) (top : Nat) (l : List RNode) (st : GenState) :
    (walkList path top l st).content = st.content ++ (walkList path top l ⟨st.stack, []⟩).content := by
  cases l with
  | nil => simp [walkList]
  | cons c cs =>
    simp only [walkList]
    rw [walkList_content path top cs (walk path top c st),
      walkList_content path top cs (walk path top c ⟨st.stack, []⟩),
      walk_content path top c st, walk_content path top c ⟨st.stack, []⟩]
    simp [walk_stack]

end

theorem walkList_fields (path : NodeData → String) (top : Nat) (l : List RNode) (st : GenState)
    (h : ∀ c ∈ l, c.kind = NodeKind.fieldk) : walkList path top l st = st := by
  induction l generalizing st with
  | nil => simp [walkList]
  | cons c cs ih =>
    have hc : c.kind = NodeKind.fieldk := h c (by simp)
    have hw : walk path top c st = st := by
      cases c with
      | mk d k cs2 => cases k <;> simp_all [RNode.kind, walk]
    rw [walkList, hw]
    exact ih st (fun x hx => h x (by simp [hx]))

mutual

theorem collectFields_length (n : RNode) : (collectFields n).length = regMemCount n := by
  cases n with
  | mk d k cs =>
    cases k with
    | fieldk => simp [collectFields, regMemCount]
    | regk => simp [collectFields, regMemCount, collectFieldsList_length cs, Nat.add_comm]
    | memk e w => simp [collectFields, regMemCount, collectFieldsList_length cs, Nat.add_comm]
    | containerk => simp [collectFields, regMemCount, collectFieldsList_length cs]

theorem collectFieldsList_length (l : List RNode) :
    (collectFieldsList l).length = regMemCountList l := by
  cases l with
  | nil => simp [collectFieldsList, regMemCountList]
  | cons c cs =>
    simp [collectFieldsList, regMemCountList, collectFields_length c, collectFieldsList_length cs]

end

theorem enterNode_length (n : RNode) (s : List Nat) :
    (enterNode n s).length = s.length + nodeRank n := by
  by_cases h : n.kind = NodeKind.fieldk
  · simp [enterNode, nodeRank, h]
  · simp [enterNode, nodeRank, h, enterAC_length]

theorem stackAtPath_length (p : List Nat) :
    ∀ (n : RNode) (s t : List Nat), stackAtPath n s p = some t →
      t.length = s.length + rankSumAt n p := by
  induction p with
  | nil =>
    intro n s t h
    simp only [stackAtPath, Option.some.injEq] at h
    rw [← h, rankSumAt, enterNode_length]
  | cons i p ih =>
    intro n s t h
    cases hget : n.children.get? i with
    | none => rw [stackAtPath, hget] at h; exact absurd h (by simp)
    | some c =>
      rw [stackAtPath, hget] at h
      have hlen := ih c (enterNode n s) t h
      simp only [rankSumAt, hget]
      rw [hlen, enterNode_length]
      omega

theorem strideScan_concat (l : List Nat) (d c : Nat) :
    strideScan (l ++ [d]) c = strideScan l c ++ [c * l.prod] := by
  induction l generalizing c with
  | nil => simp [strideScan]
  | cons x xs ih => simp [strideScan, ih, List.prod_cons, Nat.mul_assoc]

theorem reg_strides_eq_spec (dims : List Nat) (s : Nat) :
    reg_strides dims s = spec_strides dims s := by
  induction dims with
  | nil => rfl
  | cons d rest ih =>
    rw [spec_strides, ← ih, reg_strides, reg_strides, List.reverse_cons, strideScan_concat,
      List.reverse_append, List.prod_reverse]
    rfl

mutual

theorem collectFields_eq_spec (n : RNode) :
    collectFields n = (allNodes n).filterMap
      (fun m => if isLeafKind m.kind then some (m.data.inst_name, m.data.array_dimensions)
        else none) := by
  cases n with
  | mk d k cs =>
    cases k with
    | fieldk => simp [collectFields, allNodes, isLeafKind, RNode.kind]
    | regk =>
      simp [collectFields, allNodes, isLeafKind, RNode.kind, RNode.data,
        collectFieldsList_eq_spec cs]
    | memk e w =>
      simp [collectFields, allNodes, isLeafKind, RNode.kind, RNode.data,
        collectFieldsList_eq_spec cs]
    | containerk =>
      simp [collectFields, allNodes, isLeafKind, RNode.kind, RNode.data,
        collectFieldsList_eq_spec cs]

theorem collectFieldsList_eq_spec (l : List RNode) :
    collectFieldsList l = (allNodesList l).filterMap
      (fun m => if isLeafKind m.kind then some (m.data.inst_name, m.data.array_dimensions)
        else none) := by
  cases l with
  | nil => simp [collectFieldsList, allNodesList]
  | cons c cs =>
    simp [collectFieldsList, allNodesList, List.filterMap_append,
      collectFields_eq_spec c, collectFieldsList_eq_spec cs]

end

/-- C8: the generated strobe shape contains exactly one field per register
or memory node in the model, named after that node's instance name and
carrying the node's array dimensions; container nodes contribute no field
of their own, and field-level children contribute nothing. -/
theorem C8_strobe_shape_fields (root : RNode) : collectFields root = strobeFieldsSpec root := by
  rw [collectFields_eq_spec, strobeFieldsSpec]

/-- C9: generation is a deterministic pure function of the input model:
two runs of `get_strobe_struct` and `get_implementation` on the same model
give identical strings; moreover a traversal's output depends only on the
model and the starting stack — previously accumulated content is only
prefixed, never inspected — and the stack is returned unchanged. -/
theorem C9_two_run_determinism (path : NodeData → String) (root : RNode) :
    (get_strobe_struct root = get_strobe_struct root ∧
      get_implementation path root = get_implementation path root) ∧
    (∀ st : GenState,
      (walk path root.data.raw_absolute_address root st).content =
        st.content ++ (walk path root.data.raw_absolute_address root ⟨st.stack, []⟩).content ∧
      (walk path root.data.raw_absolute_address root st).stack = st.stack) :=
  ⟨⟨rfl, rfl⟩, fun st => ⟨walk_content path _ root st, walk_stack path _ root st⟩⟩

/-- C10: `get_access_strobe` returns exactly `"decoded_reg_strb."`
concatenated with `get_access` on the same node, and both resolve a field
node to its parent register, so a field and its parent yield identical
results. -/
theorem C10_access_strobe_prefix (path : NodeData → String) (n : AccessNode) :
    (get_access_strobe path n = "decoded_reg_strb." ++ get_access path n) ∧
    (∀ parent fd : NodeData,
      get_access path (AccessNode.fieldNode parent fd) =
        get_access path (AccessNode.regNode parent) ∧
      get_access_strobe path (AccessNode.fieldNode parent fd) =
        get_access_strobe path (AccessNode.regNode parent)) := by
  refine ⟨?_, fun parent fd => ⟨rfl, rfl⟩⟩
  cases n <;> rfl

/-- C5: the byte footprint per memory entry rounds `memwidth` up to whole
bytes — `8 * membyte_per_entry w` is the least multiple of 8 at or above
`w` — the high bound adds `membyte_per_entry w * mementries` to the
root-relative offset, and `memwidth = 9`, `mementries = 1` yields a 2-byte
span (upper bound `'h2` for a memory at offset 0), not 1. -/
theorem C5_mem_footprint_rounds_up :
    (∀ w : Nat, w ≤ 8 * membyte_per_entry w ∧ 8 * membyte_per_entry w < w + 8) ∧
    membyte_per_entry 9 * 1 = 2 ∧
    (∀ (top : Nat) (d : NodeData) (e w : Nat),
      get_upper_mem_address_str top d e w =
        "'h" ++ hexStr (d.raw_absolute_address - top + membyte_per_entry w * e) ++
          (if d.is_array then idxTerms (mem_strides d.array_dimensions d.array_stride)
            else "")) ∧
    get_upper_mem_address_str 0 ⟨ "m", 0, [], 0⟩ 1 9 = "'h2" := by
  refine ⟨fun w => ⟨?_, ?_⟩, by decide, fun top d e w => ?_, by decide⟩
  · unfold membyte_per_entry; omega
  · unfold membyte_per_entry; omega
  · unfold get_upper_mem_address_str
    by_cases h : d.is_array <;> simp [h]

/-- C7: a model with zero registers and zero memories makes
`get_strobe_struct` abort (the `assert s is not None` fails), while a
model with at least one register or memory yields a declaration string. -/
theorem C7_empty_model_fails (root : RNode) :
    (regMemCount root = 0 →
      get_strobe_struct root =
        Except.error ( "AssertionError: guaranteed to have at least one reg")) ∧
    (0 < regMemCount root → ∃ s, get_strobe_struct root = Except.ok s) := by
  constructor
  · intro h
    have hlen : (collectFields root).length = 0 := by rw [collectFields_length, h]
    have he : collectFields root = [] := List.eq_nil_of_length_eq_zero hlen
    simp [get_strobe_struct, get_struct, he]
  · intro h
    have hlen : (collectFields root).length = regMemCount root := collectFields_length root
    have hne : (collectFields root).isEmpty = false := by
      cases hc : collectFields root with
      | nil => rw [hc] at hlen; simp at hlen; omega
      | cons a l => simp [List.isEmpty]
    refine ⟨ "typedef struct \x7b " ++ String.join ((collectFields root).map renderMember) ++
      "\x7d " ++ "decoded_reg_strb_t" ++ ";", ?_⟩
    simp [get_strobe_struct, get_struct, hne]

/-- Witness for C7 at concrete models: an address map with only container
nodes aborts; one containing a single register returns a declaration. -/
theorem C7_empty_model_fails_witness :
    (get_strobe_struct (RNode.mk ⟨ "top", 0, [], 0⟩ NodeKind.containerk
        [RNode.mk ⟨ "sub", 0, [], 0⟩ NodeKind.containerk []]) =
      Except.error ( "AssertionError: guaranteed to have at least one reg")) ∧
    (∃ s, get_strobe_struct (RNode.mk ⟨ "top", 0, [], 0⟩ NodeKind.containerk
        [RNode.mk ⟨ "r", 0, [], 0⟩ NodeKind.regk []]) = Except.ok s) :=
  ⟨(C7_empty_model_fails _).1 (by simp [regMemCount, regMemCountList]),
    (C7_empty_model_fails _).2 (by simp [regMemCount, regMemCountList])⟩

/-- A register with dimensions `[2,3]` and `arrayStride = 4` inside a
plain (non-array) address map, used to observe the emitted condition. -/
def c2Tree : RNode :=
  RNode.mk ⟨ "top", 0, [], 0⟩ NodeKind.containerk
    [RNode.mk ⟨ "r", 0, [2, 3], 4⟩ NodeKind.regk []]

/-- C2: entering an array node with dimensions `[2,3]` and stride 4 pushes
per-dimension strides `[12, 4]` (outermost first); in general the pushed
strides are the cumulative products of the spec (array stride times the
sizes of all inner dimensions); and a register at that position gets
exactly the two summands `i0*'hc` and `i1*'h4`. -/
theorem C2_cumulative_stride_push :
    reg_strides [2, 3] 4 = [12, 4] ∧
    (∀ (dims : List Nat) (s : Nat), reg_strides dims s = spec_strides dims s) ∧
    (walk (fun d => d.inst_name) 0 c2Tree ⟨[], []⟩).content =
      [ "decoded_reg_strb.r = cpuif_req_masked & (cpuif_addr == 'h0 + i0*'hc + i1*'h4);"] := by
  refine ⟨by decide, reg_strides_eq_spec, ?_⟩
  simp only [c2Tree, walk, walkList]
  decide

/-- C3: a register with no array dimensions and no active array frames
gets exactly one equality condition `requestActive AND (busAddress ==
raw_absolute_address - root address)` with no index summands; in general
the address term appends one `i<k>*stride` summand per active stack frame,
in stack order with distinct consecutive loop indices. -/
theorem C3_reg_decode_condition (path : NodeData → String) (top : Nat) (d : NodeData)
    (st : GenState) (cs : List RNode) (h : d.array_dimensions = [])
    (hcs : ∀ c ∈ cs, c.kind = NodeKind.fieldk) :
    ((walk path top (RNode.mk d NodeKind.regk cs) st).content =
      st.content ++ [get_access_strobe path (AccessNode.regNode d) ++
        " = cpuif_req_masked & (cpuif_addr == " ++ get_address_str top d st.stack ++ ");"]) ∧
    (st.stack = [] →
      (walk path top (RNode.mk d NodeKind.regk cs) st).content =
        st.content ++ [get_access_strobe path (AccessNode.regNode d) ++
          " = cpuif_req_masked & (cpuif_addr == " ++ "'h" ++
          hexStr (d.raw_absolute_address - top) ++ ");"]) ∧
    (∀ stack : List Nat, (idxTermsList stack).length = stack.length ∧
      ∀ (i : Nat) (hi : i < stack.length),
        (idxTermsList stack).get? i = some (idxTerm i (stack.get ⟨i, hi⟩))) := by
  have harr : d.is_array = false := by simp [NodeData.is_array, h]
  have hmain : (walk path top (RNode.mk d NodeKind.regk cs) st).content =
      st.content ++ [regStmt path top d st.stack] := by
    simp only [walk, enterAC, harr, Bool.false_eq_true, if_false]
    rw [walkList_fields path top cs _ hcs]
  refine ⟨?_, ?_, ?_⟩
  · rw [hmain]; rfl
  · intro hs
    rw [hmain, hs]
    simp only [regStmt, get_address_str, idxTerms, idxTermsList, List.enum_nil,
      List.map_nil, String.join, List.foldl_nil, String.append_empty, String.append_assoc]
  · intro stack
    refine ⟨by simp [idxTermsList, List.enum_length], fun i hi => ?_⟩
    simp [idxTermsList, List.get?_eq_getElem?, List.getElem?_enum,
      List.getElem?_eq_getElem hi]

/-- Witness for C3: a lone plain register at offset 8 under a bare address
map produces exactly the no-summand equality condition. -/
theorem C3_reg_decode_condition_witness :
    (walk (fun d => d.inst_name) 0 (RNode.mk ⟨ "r", 8, [], 0⟩ NodeKind.regk [])
        ⟨[], []⟩).content =
      [] ++ [get_access_strobe (fun d => d.inst_name) (AccessNode.regNode ⟨ "r", 8, [], 0⟩) ++
        " = cpuif_req_masked & (cpuif_addr == " ++ "'h" ++ hexStr (8 - 0) ++ ");"] :=
  (C3_reg_decode_condition (fun d => d.inst_name) 0 ⟨ "r", 8, [], 0⟩
    ⟨[], []⟩ [] rfl (fun c hc => absurd hc (List.not_mem_nil c))).2.1 rfl

/-- C4: visiting a memory with no array dimensions emits one half-open
range condition: `requestActive AND (busAddress >= low) AND (busAddress <
high)` with `low = raw_absolute_address - root` and `high = low +
ceil(memwidth/8) * mementries`; for `mementries = 4`, `memwidth = 32` at
root-relative offset 0x100 the bounds are `'h100` and `'h110`. -/
theorem C4_mem_decode_condition (path : NodeData → String) (top : Nat) (d : NodeData)
    (e w : Nat) (st : GenState) (cs : List RNode) (h : d.array_dimensions = [])
    (hcs : ∀ c ∈ cs, c.kind = NodeKind.fieldk) :
    ((walk path top (RNode.mk d (NodeKind.memk e w) cs) st).content =
      st.content ++ [get_access_strobe path (AccessNode.regNode d) ++
        " = cpuif_req_masked & (cpuif_addr >= (" ++ "'h" ++
        hexStr (d.raw_absolute_address - top) ++ ")) &  (cpuif_addr < (" ++ "'h" ++
        hexStr (d.raw_absolute_address - top + membyte_per_entry w * e) ++ "));"]) ∧
    get_mem_address_str 0 ⟨ "m", 256, [], 0⟩ = "'h100" ∧
    get_upper_mem_address_str 0 ⟨ "m", 256, [], 0⟩ 4 32 = "'h110" := by
  have harr : d.is_array = false := by simp [NodeData.is_array, h]
  have hmain : (walk path top (RNode.mk d (NodeKind.memk e w) cs) st).content =
      st.content ++ [memStmt path top d e w] := by
    simp only [walk, enterAC, harr, Bool.false_eq_true, if_false]
    rw [walkList_fields path top cs _ hcs]
  refine ⟨?_, by decide, by decide⟩
  rw [hmain]
  simp only [memStmt, get_mem_address_str, get_upper_mem_address_str, harr,
    Bool.false_eq_true, if_false, String.append_assoc]

/-- Witness for C4: a lone non-array memory with 4 entries of 32 bits at
offset 0x100 yields the range condition with bounds 0x100 and 0x110. -/
theorem C4_mem_decode_condition_witness :
    (walk (fun d => d.inst_name) 0 (RNode.mk ⟨ "m", 256, [], 0⟩ (NodeKind.memk 4 32) [])
        ⟨[], []⟩).content =
      [] ++ [get_access_strobe (fun d => d.inst_name) (AccessNode.regNode ⟨ "m", 256, [], 0⟩) ++
        " = cpuif_req_masked & (cpuif_addr >= (" ++ "'h" ++ hexStr (256 - 0) ++
        ")) &  (cpuif_addr < (" ++ "'h" ++
        hexStr (256 - 0 + membyte_per_entry 32 * 4) ++ "));"] :=
  (C4_mem_decode_condition (fun d => d.inst_name) 0 ⟨ "m", 256, [], 0⟩ 4 32
    ⟨[], []⟩ [] rfl (fun c hc => absurd hc (List.not_mem_nil c))).1

/-- A register array of rank 1 nested inside an array container, to
exhibit the stride stack three frames deep. -/
def c6Tree : RNode :=
  RNode.mk ⟨ "top", 0, [], 0⟩ NodeKind.containerk
    [RNode.mk ⟨ "blk", 0, [2, 3], 4⟩ NodeKind.containerk
      [RNode.mk ⟨ "r", 0, [5], 4⟩ NodeKind.regk []]]

/-- C6: a full traversal returns the stride stack exactly as it started;
entering a node pushes one entry per array dimension (zero when not an
array) and its paired exit pops exactly that count back off; and the stack
depth at any node equals the sum of array ranks of the nodes on the path
from the root to it, inclusive. -/
theorem C6_stride_stack_invariants (path : NodeData → String) (top : Nat) :
    (∀ (n : RNode) (st : GenState), (walk path top n st).stack = st.stack) ∧
    (∀ (d : NodeData) (s : List Nat),
      (enterAC d s).length =
        s.length + (if d.is_array then d.array_dimensions.length else 0)) ∧
    (∀ (d : NodeData) (s : List Nat), exitAC d (enterAC d s) = s) ∧
    (∀ (n : RNode) (s q t : List Nat), stackAtPath n s q = some t →
      t.length = s.length + rankSumAt n q) :=
  ⟨fun n st => walk_stack path top n st, enterAC_length, exitAC_enterAC,
    fun n s q t hq => stackAtPath_length q n s t hq⟩

/-- Witness for C6: walking a nested array model from a nonempty stack
returns that stack unchanged, and the stack three array levels deep has
depth 3 = 2 + 1, the sum of the ranks along the path. -/
theorem C6_stride_stack_invariants_witness :
    (walk (fun d => d.inst_name) 0 c6Tree ⟨[7], []⟩).stack = [7] ∧
    ([12, 4, 4] : List Nat).length = ([] : List Nat).length + rankSumAt c6Tree [0, 0] :=
  ⟨(C6_stride_stack_invariants (fun d => d.inst_name) 0).1 c6Tree ⟨[7], []⟩,
    (C6_stride_stack_invariants (fun d => d.inst_name) 0).2.2.2 c6Tree [] [0, 0] [12, 4, 4]
      (by decide)⟩

/-- A non-array register and a non-array memory side by side inside an
array container of stride 0x10: the register's condition picks up the
ancestor index term, the memory's bounds do not. -/
def c1Tree : RNode :=
  RNode.mk ⟨ "top", 0, [], 0⟩ NodeKind.containerk
    [RNode.mk ⟨ "blk", 0, [2], 16⟩ NodeKind.containerk
      [RNode.mk ⟨ "r", 0, [], 0⟩ NodeKind.regk [],
       RNode.mk ⟨ "m", 8, [], 0⟩ (NodeKind.memk 2 16) []]]

/-- C1: the claim is refuted by the code. `_gen_mem_array_stride` is not
the Stride Tracker's cumulative-product computation: for dimensions
`[2,3,5]` and stride 4 the register path pushes `[60, 20, 4]` while the
memory path computes `[12, 20, 4]` (each outer entry is `stride * one
dimension`, not a running product); and the memory bounds ignore the
shared stack entirely: a non-array memory under an array container emits
no index summand although a register at the same position does. The low
and high bounds do agree with each other (both call the same helper). -/
theorem C1_mem_bounds_ignore_stride_stack :
    mem_strides [2, 3, 5] 4 = [12, 20, 4] ∧
    reg_strides [2, 3, 5] 4 = [60, 20, 4] ∧
    mem_strides [2, 3, 5] 4 ≠ reg_strides [2, 3, 5] 4 ∧
    (walk (fun d => d.inst_name) 0 c1Tree ⟨[], []⟩).content =
      [ "decoded_reg_strb.r = cpuif_req_masked & (cpuif_addr == 'h0 + i0*'h10);",
        "decoded_reg_strb.m = cpuif_req_masked & (cpuif_addr >= ('h8)) &  (cpuif_addr < ('hc));"] := by
  refine ⟨by decide, by decide, by decide, ?_⟩
  simp only [c1Tree, walk, walkList]
  decide
